import Mathlib

/-!
# Verification of the quadratic-equation solver

A shallow embedding, over exact rational arithmetic, of the quadratic-equation
solver in `src/quadratic_equation_solver.py`:

* `sign`, `sqrt_by_newton` (Newton iteration with an explicit fuel bound for
  the source's unbounded `while` loop; `none` models "still looping"),
* `solve_quadratic` (real/complex branches, the `q = 0` handling and the
  NaN check on the discriminant, with NaN adjoined to the scalars as `Dbl.nan`),
* `validate_input` (the decimal round-trip validator), together with a model
  of the Python runtime services it calls (`float`, `str`, `"%.100f"`
  formatting) over IEEE-754 binary64 values represented exactly.

Python's IEEE-754 doubles are modelled by exact rationals: every arithmetic
step of the source is translated to the corresponding exact operation.  The
source's `math.isnan` test is honest in this model: a NaN can only enter
`solve_quadratic` through a coefficient (Python's `float("nan")` parses), and
`Dbl` tracks exactly that.
-/

namespace QuadSolver

/-- `ERROR = 0.00000001`, the acceptable error for Newton's method
(`quadratic_equation_solver.py`, line 7), as an exact rational. -/
def ERROR : ℚ := 1 / 100000000

/-- `sign(b)`: `1 if b > 0 else -1` (`quadratic_equation_solver.py`, lines 43-49). -/
def sign (b : ℚ) : ℚ := if 0 < b then 1 else -1

/-- The body of the `while True` loop of `sqrt_by_newton`
(`quadratic_equation_solver.py`, lines 66-70): compute
`result = (previous + value / previous) / 2`, return it when
`abs(previous - result) < ERROR`, else continue from `result`.
The source loop has no bound; `fuel` counts iterations still allowed and
`none` means the loop has not yet terminated within `fuel` iterations. -/
def sqrtLoop (value previous : ℚ) : ℕ → Option ℚ
  | 0 => none
  | fuel + 1 =>
    let result := (previous + value / previous) / 2
    if |previous - result| < ERROR then some result else sqrtLoop value result fuel

/-- `sqrt_by_newton(value)` (`quadratic_equation_solver.py`, lines 52-72):
returns `0` for `value == 0`, otherwise iterates from the seed
`previous = (1 + value) / 2`. -/
def sqrt_by_newton (fuel : ℕ) (value : ℚ) : Option ℚ :=
  if value = 0 then some 0 else sqrtLoop value ((1 + value) / 2) fuel

/-- The sequence of iterates of the Newton loop for a given `value`:
`newtonIterate value 0` is the seed `(1 + value) / 2` and each further
iterate applies the loop's update `(previous + value / previous) / 2`. -/
def newtonIterate (value : ℚ) : ℕ → ℚ
  | 0 => (1 + value) / 2
  | n + 1 =>
    let previous := newtonIterate value n
    (previous + value / previous) / 2

/-- The failure signals of `solve_quadratic`:
`notEnoughPrecision` models `NotEnoughPrecisionException` (raised on a NaN
discriminant), `invalidState` models the `ValueError("Invalid state: q=0 but
c≠0.")` raised in the `q == 0`, `c ≠ 0` branch. -/
inductive SolveError where
  | notEnoughPrecision
  | invalidState
deriving DecidableEq, Repr

/-- A root as returned by `solve_quadratic`: a Python float (`real`) or a
Python `complex(re, im)` (`cplx`). -/
inductive Root where
  | real (x : ℚ)
  | cplx (re im : ℚ)
deriving DecidableEq, Repr

/-- A Python float value reaching the solver: either an actual (finite) value,
modelled exactly as a rational, or NaN.  NaN can reach `solve_quadratic`
because `float("nan")` parses; exact rational arithmetic itself never
overflows, so infinities are not produced inside the solver. -/
inductive Dbl where
  | nan
  | num (q : ℚ)
deriving DecidableEq, Repr

/-- NaN-propagating multiplication of Python floats. -/
def Dbl.mul : Dbl → Dbl → Dbl
  | .num x, .num y => .num (x * y)
  | _, _ => .nan

/-- NaN-propagating subtraction of Python floats. -/
def Dbl.sub : Dbl → Dbl → Dbl
  | .num x, .num y => .num (x - y)
  | _, _ => .nan

/-- `math.isnan`. -/
def Dbl.isnan : Dbl → Bool
  | .nan => true
  | .num _ => false

/-- The rational carried by a non-NaN value (junk `0` on NaN; every use below
is guarded by the source's `isnan` test on the discriminant, which by
`discriminant_num` forces all three coefficients to be numbers). -/
def Dbl.toRat : Dbl → ℚ
  | .nan => 0
  | .num q => q

/-- `discriminant = b * b - 4 * a * c` (`quadratic_equation_solver.py`,
line 15) over NaN-propagating floats. -/
def discriminant (a b c : Dbl) : Dbl :=
  (b.mul b).sub (((Dbl.num 4).mul a).mul c)

/-- `solve_quadratic(a, b, c)` (`quadratic_equation_solver.py`, lines 14-40).
`fuel` bounds the iterations of the inner Newton loop; the result is `none`
when that loop is still running after `fuel` iterations (the source would
still be inside `while True`), otherwise `some` of either a raised error or
the returned pair of roots. -/
def solve_quadratic (fuel : ℕ) (a b c : Dbl) : Option (Except SolveError (Root × Root)) :=
  let d := discriminant a b c
  if d.isnan then some (.error .notEnoughPrecision)
  else
    let ar := a.toRat
    let br := b.toRat
    let cr := c.toRat
    let dr := d.toRat
    if dr < 0 then
      match sqrt_by_newton fuel (-1 * dr) with
      | none => none
      | some sqrt =>
        let real := (-1 * br) / (2 * ar)
        let imaginary := sqrt / (2 * ar)
        some (.ok (.cplx real imaginary, .cplx real (-imaginary)))
    else
      match sqrt_by_newton fuel dr with
      | none => none
      | some sqrt =>
        let q := (-0.5) * (br + sign br * sqrt)
        if q = 0 then
          if cr ≠ 0 then some (.error .invalidState)
          else some (.ok (.real 0, .real (-br / ar)))
        else some (.ok (.real (q / ar), .real (cr / q)))

/-- The sum of a returned pair of real roots (used to state concrete
counterexamples without binders). -/
def realRootSum : Option (Except SolveError (Root × Root)) → Option ℚ
  | some (.ok (.real x1, .real x2)) => some (x1 + x2)
  | _ => none

/-! ## Helper lemmas about the Newton loop -/

theorem ERROR_pos : 0 < ERROR := by norm_num [ERROR]

/-- Writing `|x|` as a branch, for evaluating the loop on concrete inputs. -/
theorem q_abs_ite (x : ℚ) : |x| = if 0 ≤ x then x else -x := by
  rcases le_or_lt 0 x with h | h
  · rw [abs_of_nonneg h, if_pos h]
  · rw [abs_of_neg h, if_neg (not_le.mpr h)]

/-- One update step of the loop stays strictly positive. -/
theorem step_pos {value previous : ℚ} (hv : 0 < value) (hp : 0 < previous) :
    0 < (previous + value / previous) / 2 := by positivity

/-- The key identity: the next iterate overshoots the square root by exactly
the square of the gap it just moved, `result ^ 2 - value = (previous - result) ^ 2`
where `result = (previous + value / previous) / 2`. -/
theorem step_sq_sub {value previous : ℚ} (hp : previous ≠ 0) :
    ((previous + value / previous) / 2) ^ 2 - value =
      (previous - (previous + value / previous) / 2) ^ 2 := by
  field_simp
  ring

/-- The gap moved by one step, written over a common denominator. -/
theorem step_gap {value previous : ℚ} (hp : previous ≠ 0) :
    previous - (previous + value / previous) / 2 = (previous ^ 2 - value) / (2 * previous) := by
  field_simp
  ring

/-- Above the square root, each step moves down (a nonnegative gap). -/
theorem step_gap_nonneg {value previous : ℚ} (hp : 0 < previous)
    (hsq : value ≤ previous ^ 2) :
    0 ≤ previous - (previous + value / previous) / 2 := by
  rw [step_gap hp.ne']
  exact div_nonneg (by linarith) (by linarith)

/-- The gap is at most the next iterate. -/
theorem step_gap_le {value previous : ℚ} (hv : 0 < value) (hp : 0 < previous) :
    previous - (previous + value / previous) / 2 ≤ (previous + value / previous) / 2 := by
  have h : 0 < value / previous := by positivity
  linarith

/-- Once above the square root, each step at least halves the gap:
with `r` the iterate after `previous`, the gap `r` will move next is at most
half the gap `previous` just moved. -/
theorem step_gap_halves {value previous r : ℚ} (hv : 0 < value) (hp : 0 < previous)
    (hsq : value ≤ previous ^ 2) (hr : r = (previous + value / previous) / 2) :
    r - (r + value / r) / 2 ≤ (previous - r) / 2 := by
  have hrpos : 0 < r := hr ▸ step_pos hv hp
  have hgap : 0 ≤ previous - r := hr ▸ step_gap_nonneg hp hsq
  have hle : previous - r ≤ r := hr ▸ step_gap_le hv hp
  have hsq' : r ^ 2 - value = (previous - r) ^ 2 := by
    rw [hr]
    exact step_sq_sub hp.ne'
  have hkey : r - (r + value / r) / 2 = (r ^ 2 - value) / (2 * r) := step_gap hrpos.ne'
  rw [hkey, hsq']
  rw [div_le_div_iff₀ (by positivity) (by norm_num : (0:ℚ) < 2)]
  have hmul : (previous - r) * (previous - r) ≤ (previous - r) * r :=
    mul_le_mul_of_nonneg_left hle hgap
  nlinarith

/-- Any value the loop returns is one update step from a positive iterate,
hence positive, and its square overshoots `value` by less than `ERROR ^ 2`. -/
theorem sqrtLoop_spec {value : ℚ} (hv : 0 < value) :
    ∀ fuel previous, 0 < previous → ∀ r, sqrtLoop value previous fuel = some r →
      0 < r ∧ 0 ≤ r ^ 2 - value ∧ r ^ 2 - value < ERROR ^ 2 := by
  intro fuel
  induction fuel with
  | zero => intro previous _ r h; simp [sqrtLoop] at h
  | succ n ih =>
    intro previous hp r h
    rw [sqrtLoop] at h
    set result := (previous + value / previous) / 2 with hres
    have hrpos : 0 < result := step_pos hv hp
    by_cases hlt : |previous - result| < ERROR
    · rw [if_pos hlt] at h
      obtain rfl : result = r := Option.some.inj h
      refine ⟨hrpos, ?_, ?_⟩
      · rw [step_sq_sub hp.ne']
        positivity
      · rw [step_sq_sub hp.ne']
        calc (previous - result) ^ 2 = |previous - result| ^ 2 := (sq_abs _).symm
          _ < ERROR ^ 2 := by
              have := abs_nonneg (previous - result)
              nlinarith
    · rw [if_neg hlt] at h
      exact ih result hrpos r h

/-- The loop terminates as soon as the remaining fuel covers the number of
halvings needed to push the (nonnegative, geometrically shrinking) gap below
`ERROR`. -/
theorem sqrtLoop_terminates {value : ℚ} (hv : 0 < value) :
    ∀ fuel previous, 0 < previous → value ≤ previous ^ 2 →
      previous - (previous + value / previous) / 2 < ERROR * 2 ^ fuel →
      ∃ r, sqrtLoop value previous (fuel + 1) = some r := by
  intro fuel
  induction fuel with
  | zero =>
    intro previous hp hsq hgap
    refine ⟨(previous + value / previous) / 2, ?_⟩
    rw [sqrtLoop]
    rw [if_pos ?_]
    rw [q_abs_ite, if_pos (step_gap_nonneg hp hsq)]
    simpa using hgap
  | succ n ih =>
    intro previous hp hsq hgap
    rw [sqrtLoop]
    set result := (previous + value / previous) / 2 with hres
    by_cases hlt : |previous - result| < ERROR
    · exact ⟨result, by rw [if_pos hlt]⟩
    · have hrpos : 0 < result := step_pos hv hp
      have hrsq : value ≤ result ^ 2 := by
        have := @step_sq_sub value previous hp.ne'
        nlinarith [sq_nonneg (previous - result)]
      have hnext : result - (result + value / result) / 2 ≤ (previous - result) / 2 :=
        step_gap_halves hv hp hsq hres
      have hgap' : result - (result + value / result) / 2 < ERROR * 2 ^ n := by
        have h2 : previous - result < ERROR * 2 ^ (n + 1) := hgap
        calc result - (result + value / result) / 2 ≤ (previous - result) / 2 := hnext
          _ < ERROR * 2 ^ (n + 1) / 2 := by linarith
          _ = ERROR * 2 ^ n := by ring
      obtain ⟨r, hr⟩ := ih result hrpos hrsq hgap'
      exact ⟨r, by rw [if_neg hlt]; exact hr⟩

/-- Specification of `sqrt_by_newton` on a positive input: a returned value is
positive and its square overshoots the input by less than `ERROR ^ 2`. -/
theorem sqrt_by_newton_spec {value : ℚ} (hv : 0 < value) {fuel : ℕ} {r : ℚ}
    (h : sqrt_by_newton fuel value = some r) :
    0 < r ∧ 0 ≤ r ^ 2 - value ∧ r ^ 2 - value < ERROR ^ 2 := by
  rw [sqrt_by_newton, if_neg hv.ne'] at h
  exact sqrtLoop_spec hv fuel _ (by positivity) r h

/-- `sqrt_by_newton` at `0` returns `0` at once, for any fuel. -/
theorem sqrt_by_newton_zero (fuel : ℕ) : sqrt_by_newton fuel 0 = some 0 := by
  simp [sqrt_by_newton]

/-- A returned square root of a nonnegative input is nonnegative. -/
theorem sqrt_by_newton_nonneg {value : ℚ} (hv : 0 ≤ value) {fuel : ℕ} {r : ℚ}
    (h : sqrt_by_newton fuel value = some r) : 0 ≤ r := by
  rcases eq_or_lt_of_le hv with h0 | h0
  · rw [← h0, sqrt_by_newton_zero] at h
    exact le_of_eq (Option.some.inj h)
  · exact (sqrt_by_newton_spec h0 h).1.le

/-- The square of any returned square root stays within `ERROR ^ 2` of the
(nonnegative) input. -/
theorem sqrt_by_newton_residual {value : ℚ} (hv : 0 ≤ value) {fuel : ℕ} {r : ℚ}
    (h : sqrt_by_newton fuel value = some r) :
    0 ≤ r ^ 2 - value ∧ r ^ 2 - value < ERROR ^ 2 := by
  rcases eq_or_lt_of_le hv with h0 | h0
  · rw [← h0, sqrt_by_newton_zero] at h
    obtain rfl : (0:ℚ) = r := Option.some.inj h
    rw [← h0]
    norm_num [ERROR]
  · exact (sqrt_by_newton_spec h0 h).2

/-- Every iterate of the Newton loop is strictly positive for positive input. -/
theorem newtonIterate_pos {value : ℚ} (hv : 0 < value) :
    ∀ n, 0 < newtonIterate value n := by
  intro n
  induction n with
  | zero => rw [newtonIterate]; positivity
  | succ k ih =>
    rw [newtonIterate]
    exact step_pos hv ih

/-- The seed satisfies `value ≤ seed ^ 2` — `(1 + value) ^ 2 ≥ 4 * value`
is `(1 - value) ^ 2 ≥ 0`. -/
theorem seed_sq_ge {value : ℚ} : value ≤ ((1 + value) / 2) ^ 2 := by
  nlinarith [sq_nonneg (1 - value)]

/-- Top-level termination: for every positive input some fuel suffices. -/
theorem sqrt_by_newton_exists_fuel {value : ℚ} (hv : 0 ≤ value) :
    ∃ fuel r, sqrt_by_newton fuel value = some r := by
  rcases eq_or_lt_of_le hv with h0 | h0
  · exact ⟨1, 0, by rw [← h0, sqrt_by_newton_zero]⟩
  · set p0 : ℚ := (1 + value) / 2 with hp0
    have hp0pos : 0 < p0 := by rw [hp0]; positivity
    have hp0sq : value ≤ p0 ^ 2 := seed_sq_ge
    set g0 : ℚ := p0 - (p0 + value / p0) / 2 with hg0
    obtain ⟨n, hn⟩ := exists_nat_gt (g0 / ERROR)
    have h2n : (n : ℚ) < 2 ^ n := by
      exact_mod_cast Nat.lt_two_pow n
    have hgap : g0 < ERROR * 2 ^ n := by
      have h1 : g0 / ERROR < 2 ^ n := lt_trans hn h2n
      calc g0 = g0 / ERROR * ERROR := by rw [div_mul_cancel₀ _ ERROR_pos.ne']
        _ < 2 ^ n * ERROR := mul_lt_mul_of_pos_right h1 ERROR_pos
        _ = ERROR * 2 ^ n := by ring
    obtain ⟨r, hr⟩ := sqrtLoop_terminates h0 n p0 hp0pos hp0sq hgap
    refine ⟨n + 1, r, ?_⟩
    rw [sqrt_by_newton, if_neg h0.ne']
    exact hr

/-! ## Helper lemmas about `sign` and `solve_quadratic` -/

theorem sign_of_pos {b : ℚ} (h : 0 < b) : sign b = 1 := if_pos h

theorem sign_of_nonpos {b : ℚ} (h : ¬0 < b) : sign b = -1 := if_neg h

/-- `b * sign b = |b|`. -/
theorem mul_sign (b : ℚ) : b * sign b = |b| := by
  by_cases h : 0 < b
  · rw [sign_of_pos h, abs_of_pos h, mul_one]
  · rw [sign_of_nonpos h, abs_of_nonpos (not_lt.mp h)]
    ring

theorem sign_sq (b : ℚ) : sign b * sign b = 1 := by
  by_cases h : 0 < b
  · rw [sign_of_pos h]; norm_num
  · rw [sign_of_nonpos h]; norm_num

/-- If the stabilized intermediate `q = -0.5 * (b + sign b * s)` vanishes and
`s ≥ 0`, then `b = 0` and `s = 0`. -/
theorem q_eq_zero_cases {b s : ℚ} (hs : 0 ≤ s)
    (hq : (-0.5 : ℚ) * (b + sign b * s) = 0) : b = 0 ∧ s = 0 := by
  have h : b + sign b * s = 0 := by
    have h05 : (-0.5 : ℚ) ≠ 0 := by norm_num
    exact (mul_eq_zero.mp hq).resolve_left h05
  by_cases hb : 0 < b
  · rw [sign_of_pos hb, one_mul] at h
    constructor <;> linarith
  · rw [sign_of_nonpos hb] at h
    have hb' : b ≤ 0 := not_lt.mp hb
    constructor <;> linarith

/-- On purely numeric coefficients the discriminant is the numeric
`b * b - 4 * a * c`. -/
theorem discriminant_num (a b c : ℚ) :
    discriminant (.num a) (.num b) (.num c) = .num (b * b - 4 * a * c) := rfl

/-- Evaluation of `solve_quadratic` on numeric coefficients in the real
branch (`discriminant ≥ 0`), given the value returned by the Newton loop. -/
theorem solve_quadratic_real_eval (fuel : ℕ) (a b c s : ℚ)
    (hD : ¬b * b - 4 * a * c < 0)
    (hs : sqrt_by_newton fuel (b * b - 4 * a * c) = some s) :
    solve_quadratic fuel (.num a) (.num b) (.num c) =
      (if (-0.5 : ℚ) * (b + sign b * s) = 0 then
        if c ≠ 0 then some (.error .invalidState)
        else some (.ok (.real 0, .real (-b / a)))
      else
        some (.ok (.real ((-0.5 : ℚ) * (b + sign b * s) / a),
          .real (c / ((-0.5 : ℚ) * (b + sign b * s)))))) := by
  rw [solve_quadratic]
  simp only [discriminant_num, Dbl.isnan, Dbl.toRat, Bool.false_eq_true, if_false]
  rw [if_neg hD, hs]

/-- Evaluation of `solve_quadratic` on numeric coefficients in the complex
branch (`discriminant < 0`), given the value returned by the Newton loop. -/
theorem solve_quadratic_cplx_eval (fuel : ℕ) (a b c s : ℚ)
    (hD : b * b - 4 * a * c < 0)
    (hs : sqrt_by_newton fuel (-1 * (b * b - 4 * a * c)) = some s) :
    solve_quadratic fuel (.num a) (.num b) (.num c) =
      some (.ok (.cplx ((-1 * b) / (2 * a)) (s / (2 * a)),
        .cplx ((-1 * b) / (2 * a)) (-(s / (2 * a))))) := by
  rw [solve_quadratic]
  simp only [discriminant_num, Dbl.isnan, Dbl.toRat, Bool.false_eq_true, if_false]
  rw [if_pos hD, hs]

/-! ## Claim theorems -/

/-- C1: for every `a ≠ 0`, `b`, `c` with discriminant `D = b² − 4ac ≥ 0` and
`q = −0.5·(b + sign(b)·sqrt_newton(D)) ≠ 0`, `solve_quadratic` returns the
pair `(q / a, c / q)`, where `sign(b)` is `+1` if `b > 0` and `−1` otherwise
(in particular `sign 0 = −1`). -/
theorem c1_real_branch_roots (fuel : ℕ) (a b c s : ℚ) (ha : a ≠ 0)
    (hD : 0 ≤ b * b - 4 * a * c)
    (hs : sqrt_by_newton fuel (b * b - 4 * a * c) = some s)
    (hq : (-0.5 : ℚ) * (b + sign b * s) ≠ 0) :
    solve_quadratic fuel (.num a) (.num b) (.num c) =
      some (.ok (.real ((-0.5 : ℚ) * (b + sign b * s) / a),
        .real (c / ((-0.5 : ℚ) * (b + sign b * s))))) ∧ sign 0 = -1 := by
  refine ⟨?_, by norm_num [sign]⟩
  rw [solve_quadratic_real_eval fuel a b c s (not_lt.mpr hD) hs, if_neg hq]

/-- Witness for C1 at `a = 1`, `b = -3`, `c = 2` (discriminant `1`,
`sqrt_by_newton 1 1 = some 1`, `q = 2`), yielding the roots `(2, 1)`. -/
theorem c1_real_branch_roots_witness :
    (1 : ℚ) ≠ 0 ∧ (0 : ℚ) ≤ -3 * -3 - 4 * 1 * 2 ∧
    sqrt_by_newton 1 ((-3 : ℚ) * -3 - 4 * 1 * 2) = some 1 ∧
    (-0.5 : ℚ) * (-3 + sign (-3) * 1) ≠ 0 ∧
    (solve_quadratic 1 (.num 1) (.num (-3)) (.num 2) =
      some (.ok (.real ((-0.5 : ℚ) * (-3 + sign (-3) * 1) / 1),
        .real (2 / ((-0.5 : ℚ) * (-3 + sign (-3) * 1))))) ∧ sign 0 = -1) :=
  ⟨by norm_num, by norm_num,
   by norm_num [sqrt_by_newton, sqrtLoop, ERROR, q_abs_ite],
   by norm_num [sign],
   c1_real_branch_roots 1 1 (-3) 2 1 (by norm_num) (by norm_num)
     (by norm_num [sqrt_by_newton, sqrtLoop, ERROR, q_abs_ite])
     (by norm_num [sign])⟩

/-- C6: `sqrt_newton 0 = 0` exactly (for any fuel), and any result `r` the
iteration returns on `value > 0` satisfies `|r·r − value| < 1e-8` (the loop
stops when consecutive iterates differ by less than `ERROR = 1e-8`, and the
final iterate overshoots by exactly the square of the last gap, which is
below `ERROR² ≤ ERROR`). -/
theorem c6_sqrt_newton_correct (fuel : ℕ) (value r : ℚ) (hv : 0 < value)
    (h : sqrt_by_newton fuel value = some r) :
    sqrt_by_newton fuel 0 = some 0 ∧ |r * r - value| < ERROR := by
  refine ⟨sqrt_by_newton_zero fuel, ?_⟩
  obtain ⟨-, hnn, hlt⟩ := sqrt_by_newton_spec hv h
  rw [show r * r = r ^ 2 by ring]
  rw [abs_of_nonneg hnn]
  calc r ^ 2 - value < ERROR ^ 2 := hlt
    _ < ERROR := by norm_num [ERROR]

/-- Witness for C6 at `value = 4`, `fuel = 5`: the loop stops after five
iterations at the displayed exact rational, whose square is within `1e-8`
of `4`. -/
theorem c6_sqrt_newton_correct_witness :
    (0 : ℚ) < 4 ∧
    sqrt_by_newton 5 4 =
      some (1716841910146256242328924544641 / 858420955073128121164462272320) ∧
    (sqrt_by_newton 5 0 = some 0 ∧
      |(1716841910146256242328924544641 / 858420955073128121164462272320 : ℚ) *
          (1716841910146256242328924544641 / 858420955073128121164462272320) - 4| <
        ERROR) :=
  ⟨by norm_num,
   by norm_num [sqrt_by_newton, sqrtLoop, ERROR, q_abs_ite],
   c6_sqrt_newton_correct 5 4
     (1716841910146256242328924544641 / 858420955073128121164462272320)
     (by norm_num)
     (by norm_num [sqrt_by_newton, sqrtLoop, ERROR, q_abs_ite])⟩

/-- C7: for every (finite) `value ≥ 0` the unbounded Newton loop terminates:
some fuel bound suffices for the consecutive-iterate difference to drop below
`ERROR`, so `sqrt_by_newton` is total on its precondition.  (After the first
step the iterate stays above `√value`, and the gap then at least halves each
iteration.) -/
theorem c7_sqrt_newton_terminates (value : ℚ) (hv : 0 ≤ value) :
    ∃ fuel r, sqrt_by_newton fuel value = some r :=
  sqrt_by_newton_exists_fuel hv

/-- Witness for C7 at `value = 2`. -/
theorem c7_sqrt_newton_terminates_witness :
    (0 : ℚ) ≤ 2 ∧ ∃ fuel r, sqrt_by_newton fuel 2 = some r :=
  ⟨by norm_num, c7_sqrt_newton_terminates 2 (by norm_num)⟩

/-- C9: for `value > 0`, the seed `(1 + value)/2` and every later iterate of
the Newton loop is strictly positive — so the division `value / previous`
never divides by zero — and any returned result is strictly positive. -/
theorem c9_iterates_positive (value : ℚ) (hv : 0 < value) :
    (∀ n, 0 < newtonIterate value n) ∧
    ∀ fuel r, sqrt_by_newton fuel value = some r → 0 < r :=
  ⟨newtonIterate_pos hv, fun _ _ h => (sqrt_by_newton_spec hv h).1⟩

/-- Witness for C9 at `value = 2`. -/
theorem c9_iterates_positive_witness :
    (0 : ℚ) < 2 ∧
    ((∀ n, 0 < newtonIterate 2 n) ∧
      ∀ fuel r, sqrt_by_newton fuel 2 = some r → 0 < r) :=
  ⟨by norm_num, c9_iterates_positive 2 (by norm_num)⟩

/-- C3: `solve_quadratic` raises `NotEnoughPrecisionException` exactly when
the discriminant is NaN; an error result carries no root pair, so no roots
are returned in that case. -/
theorem c3_nep_iff_nan (fuel : ℕ) (a b c : Dbl) :
    solve_quadratic fuel a b c = some (.error .notEnoughPrecision) ↔
      (discriminant a b c).isnan = true := by
  cases hd : discriminant a b c with
  | nan =>
    rw [solve_quadratic, hd]
    simp [Dbl.isnan]
  | num d =>
    rw [solve_quadratic, hd]
    simp only [Dbl.isnan, Bool.false_eq_true, if_false, iff_false]
    intro h
    split at h
    · split at h
      · exact Option.noConfusion h
      · rw [Option.some.injEq] at h
        exact Except.noConfusion h
    · split at h
      · exact Option.noConfusion h
      · split at h
        · split at h
          · rw [Option.some.injEq, Except.error.injEq] at h
            exact SolveError.noConfusion h
          · rw [Option.some.injEq] at h
            exact Except.noConfusion h
        · rw [Option.some.injEq] at h
          exact Except.noConfusion h

/-- C4: with `D ≥ 0` and the stabilized intermediate `q = 0`: if `c ≠ 0` the
solver raises the distinct `ValueError` (`invalidState`) instead of dividing
by zero, and if `c = 0` it returns both roots equal to `0`.  (`q = 0` with a
nonnegative returned square root forces `b = 0`, so the second root `-b / a`
is `0` for every `a`; the theorem therefore does not even need `a ≠ 0`.) -/
theorem c4_q_zero_cases (fuel : ℕ) (a b c s : ℚ)
    (hD : 0 ≤ b * b - 4 * a * c)
    (hs : sqrt_by_newton fuel (b * b - 4 * a * c) = some s)
    (hq : (-0.5 : ℚ) * (b + sign b * s) = 0) :
    (c ≠ 0 → solve_quadratic fuel (.num a) (.num b) (.num c) =
        some (.error .invalidState)) ∧
    (c = 0 → solve_quadratic fuel (.num a) (.num b) (.num c) =
        some (.ok (.real 0, .real 0))) := by
  have hsnn : 0 ≤ s := sqrt_by_newton_nonneg hD hs
  obtain ⟨hb, -⟩ := q_eq_zero_cases hsnn hq
  have heval := solve_quadratic_real_eval fuel a b c s (not_lt.mpr hD) hs
  rw [if_pos hq] at heval
  constructor
  · intro hc
    rw [heval, if_pos hc]
  · intro hc
    rw [heval, if_neg (not_not.mpr hc)]
    subst hb
    norm_num

/-- Witness for C4 at `a = 0`, `b = 0`, `c = 1` (degenerate input with
`D = 0`, `q = 0`, `c ≠ 0`): the solver raises `invalidState`. -/
theorem c4_q_zero_cases_witness :
    (0 : ℚ) ≤ 0 * 0 - 4 * 0 * 1 ∧
    sqrt_by_newton 1 ((0 : ℚ) * 0 - 4 * 0 * 1) = some 0 ∧
    (-0.5 : ℚ) * (0 + sign 0 * 0) = 0 ∧
    solve_quadratic 1 (.num 0) (.num 0) (.num 1) = some (.error .invalidState) :=
  ⟨by norm_num, by norm_num [sqrt_by_newton], by norm_num [sign],
   (c4_q_zero_cases 1 0 0 1 0 (by norm_num) (by norm_num [sqrt_by_newton])
     (by norm_num [sign])).1 (by norm_num)⟩

/-- C2: for `a ≠ 0` (and exact, hence non-NaN, arithmetic): `D > 0` yields
two distinct real roots, `D = 0` two equal real roots, and `D < 0` the
complex-conjugate pair with real part `−b/(2a)` and imaginary part
`sqrt_newton(−D)/(2a)`. -/
theorem c2_discriminant_kinds (fuel : ℕ) (a b c s : ℚ) (ha : a ≠ 0) :
    (0 < b * b - 4 * a * c →
      sqrt_by_newton fuel (b * b - 4 * a * c) = some s →
      ∃ x1 x2, solve_quadratic fuel (.num a) (.num b) (.num c) =
          some (.ok (.real x1, .real x2)) ∧ x1 ≠ x2) ∧
    (b * b - 4 * a * c = 0 →
      ∃ x, solve_quadratic fuel (.num a) (.num b) (.num c) =
          some (.ok (.real x, .real x))) ∧
    (b * b - 4 * a * c < 0 →
      sqrt_by_newton fuel (-1 * (b * b - 4 * a * c)) = some s →
      solve_quadratic fuel (.num a) (.num b) (.num c) =
        some (.ok (.cplx (-1 * b / (2 * a)) (s / (2 * a)),
          .cplx (-1 * b / (2 * a)) (-(s / (2 * a)))))) := by
  refine ⟨?_, ?_, ?_⟩
  · -- D > 0: two distinct real roots
    intro hD hs
    obtain ⟨hspos, -, -⟩ := sqrt_by_newton_spec hD hs
    set q : ℚ := (-0.5 : ℚ) * (b + sign b * s) with hqdef
    have hq : q ≠ 0 := by
      intro h0
      obtain ⟨-, hs0⟩ := q_eq_zero_cases hspos.le h0
      exact absurd hs0 hspos.ne'
    have heval := solve_quadratic_real_eval fuel a b c s (not_lt.mpr hD.le) hs
    rw [if_neg hq] at heval
    refine ⟨q / a, c / q, heval, ?_⟩
    have hq2 : q ^ 2 - a * c = ((b * b - 4 * a * c) + 2 * |b| * s + s ^ 2) / 4 := by
      rw [hqdef]
      linear_combination (s / 2) * mul_sign b + (s ^ 2 / 4) * sign_sq b
    have hpos : 0 < q ^ 2 - a * c := by
      rw [hq2]
      have h1 : 0 ≤ |b| * s := mul_nonneg (abs_nonneg b) hspos.le
      have h2 : 0 ≤ s ^ 2 := sq_nonneg s
      linarith
    intro heq
    rw [div_eq_div_iff ha hq] at heq
    nlinarith [hpos]
  · -- D = 0: two equal real roots
    intro hD0
    have hs0 : sqrt_by_newton fuel (b * b - 4 * a * c) = some 0 := by
      rw [hD0]; exact sqrt_by_newton_zero fuel
    have heval := solve_quadratic_real_eval fuel a b c 0 (by rw [hD0]; norm_num) hs0
    by_cases hb : b = 0
    · subst hb
      have hc : c = 0 := by
        have hac : a * c = 0 := by linarith
        exact (mul_eq_zero.mp hac).resolve_left ha
      subst hc
      rw [if_pos (by norm_num [sign])] at heval
      rw [if_neg (by norm_num)] at heval
      exact ⟨0, by rw [heval]; norm_num⟩
    · have hq : (-0.5 : ℚ) * (b + sign b * 0) ≠ 0 := by
        intro h0
        exact hb (q_eq_zero_cases le_rfl h0).1
      rw [if_neg hq] at heval
      refine ⟨(-0.5 : ℚ) * (b + sign b * 0) / a, ?_⟩
      have hx : c / ((-0.5 : ℚ) * (b + sign b * 0)) =
          (-0.5 : ℚ) * (b + sign b * 0) / a := by
        have hQ : (-0.5 : ℚ) * (b + sign b * 0) = -(b / 2) := by ring
        rw [hQ]
        have hb2 : -(b / 2) ≠ 0 := by
          simpa using hb
        rw [div_eq_div_iff hb2 ha]
        nlinarith [hD0]
      rw [heval, hx]
  · -- D < 0: the complex-conjugate pair
    intro hD hs
    exact solve_quadratic_cplx_eval fuel a b c s hD hs

/-- Witness for C2 at `a = 1`, `b = 0`, `c = 1` (discriminant `−4`): the
complex branch returns the conjugate pair `±2i` up to the Newton
approximation of `√4`. -/
theorem c2_discriminant_kinds_witness :
    (1 : ℚ) ≠ 0 ∧ ((0 : ℚ) * 0 - 4 * 1 * 1 < 0) ∧
    sqrt_by_newton 5 (-1 * ((0 : ℚ) * 0 - 4 * 1 * 1)) =
      some (1716841910146256242328924544641 / 858420955073128121164462272320) ∧
    solve_quadratic 5 (.num 1) (.num 0) (.num 1) =
      some (.ok
        (.cplx (-1 * 0 / (2 * 1))
          (1716841910146256242328924544641 / 858420955073128121164462272320 / (2 * 1)),
         .cplx (-1 * 0 / (2 * 1))
          (-(1716841910146256242328924544641 / 858420955073128121164462272320 / (2 * 1))))) :=
  ⟨by norm_num, by norm_num,
   by norm_num [sqrt_by_newton, sqrtLoop, ERROR, q_abs_ite],
   (c2_discriminant_kinds 5 1 0 1
       (1716841910146256242328924544641 / 858420955073128121164462272320)
       (by norm_num)).2.2 (by norm_num)
     (by norm_num [sqrt_by_newton, sqrtLoop, ERROR, q_abs_ite])⟩

/-- C5 (amended): Vieta's formulas as the code actually satisfies them.  In
the real branch with `q ≠ 0` the product of the returned roots is `c / a`
exactly, and their sum is `−b/a` plus the explicit residual
`(s² − D) / (4aq)`, where `0 ≤ s² − D < ERROR²` is the Newton overshoot; the
sum is therefore within any given tolerance only when `|4aq|` is not too
small, not unconditionally.  In the complex branch the sum is `−b/a` exactly
and the product carries the analogous residual `(s² − (−D)) / (4a²)`. -/
theorem c5_vieta_exact (fuel : ℕ) (a b c s : ℚ) (ha : a ≠ 0) :
    (0 ≤ b * b - 4 * a * c →
      sqrt_by_newton fuel (b * b - 4 * a * c) = some s →
      ∀ q, q = (-0.5 : ℚ) * (b + sign b * s) → q ≠ 0 →
        solve_quadratic fuel (.num a) (.num b) (.num c) =
          some (.ok (.real (q / a), .real (c / q))) ∧
        q / a * (c / q) = c / a ∧
        q / a + c / q = -b / a + (s * s - (b * b - 4 * a * c)) / (4 * (a * q)) ∧
        0 ≤ s * s - (b * b - 4 * a * c) ∧
        s * s - (b * b - 4 * a * c) < ERROR * ERROR) ∧
    (b * b - 4 * a * c < 0 →
      sqrt_by_newton fuel (-1 * (b * b - 4 * a * c)) = some s →
      -1 * b / (2 * a) + -1 * b / (2 * a) = -b / a ∧
      -1 * b / (2 * a) * (-1 * b / (2 * a)) + s / (2 * a) * (s / (2 * a)) =
        c / a + (s * s - -1 * (b * b - 4 * a * c)) / (4 * (a * a)) ∧
      0 ≤ s * s - -1 * (b * b - 4 * a * c) ∧
      s * s - -1 * (b * b - 4 * a * c) < ERROR * ERROR) := by
  constructor
  · intro hD hs q hqdef hq
    obtain ⟨hres0, hres1⟩ := sqrt_by_newton_residual hD hs
    have hss : s * s - (b * b - 4 * a * c) = s ^ 2 - (b * b - 4 * a * c) := by ring
    have heval := solve_quadratic_real_eval fuel a b c s (not_lt.mpr hD) hs
    rw [← hqdef] at heval
    rw [if_neg hq] at heval
    have key : q * q + b * q + a * c = (s * s - (b * b - 4 * a * c)) / 4 := by
      rw [hqdef]
      linear_combination (s * s / 4) * sign_sq b
    refine ⟨heval, ?_, ?_, ?_, ?_⟩
    · field_simp
      ring
    · have expand : q / a + c / q - (-b / a + (s * s - (b * b - 4 * a * c)) / (4 * (a * q))) =
          (4 * (q * q + b * q + a * c) - (s * s - (b * b - 4 * a * c))) / (4 * (a * q)) := by
        field_simp
        ring
      have hz : q / a + c / q - (-b / a + (s * s - (b * b - 4 * a * c)) / (4 * (a * q))) = 0 := by
        rw [expand, key]
        ring_nf
      linarith [hz]
    · rw [hss]; exact hres0
    · rw [hss]
      calc s ^ 2 - (b * b - 4 * a * c) < ERROR ^ 2 := hres1
        _ = ERROR * ERROR := by ring
  · intro hD hs
    have hDpos : (0 : ℚ) ≤ -1 * (b * b - 4 * a * c) := by linarith
    obtain ⟨hres0, hres1⟩ := sqrt_by_newton_residual hDpos hs
    have hss : s * s - -1 * (b * b - 4 * a * c) = s ^ 2 - -1 * (b * b - 4 * a * c) := by
      ring
    refine ⟨?_, ?_, ?_, ?_⟩
    · field_simp
      ring
    · field_simp
      ring
    · rw [hss]; exact hres0
    · rw [hss]
      calc s ^ 2 - -1 * (b * b - 4 * a * c) < ERROR ^ 2 := hres1
        _ = ERROR * ERROR := by ring

set_option maxHeartbeats 3200000 in
/-- Counterexample to C5 as stated: at `a = 10⁻³⁰`, `b = 0`, `c = −5·10²⁹`
(discriminant `2`), the returned real roots sum to about `8.99·10⁵`, while
`−b/a = 0` — the Newton overshoot `(s² − D)/(4aq)` is amplified by the tiny
`a·q`, so `root1 + root2 ≈ −b/a` fails by far more than the stated `1e-8`
tolerance (the product is still exactly `c/a`). -/
theorem c5_vieta_tolerance_cex :
    realRootSum (solve_quadratic 10 (.num (1 / 10 ^ 30)) (.num 0)
        (.num (-(5 * 10 ^ 29)))) =
      some (15625000000000000000000000000 / 17374763192966689655283) ∧
    ERROR < |(15625000000000000000000000000 : ℚ) / 17374763192966689655283 -
        -0 / (1 / 10 ^ 30)| := by
  constructor
  · have hs : sqrt_by_newton 10
        ((0 : ℚ) * 0 - 4 * (1 / 10 ^ 30) * -(5 * 10 ^ 29)) =
        some (886731088897 / 627013566048) := by
      norm_num [sqrt_by_newton, sqrtLoop, ERROR, q_abs_ite]
    have heval := solve_quadratic_real_eval 10 (1 / 10 ^ 30) 0 (-(5 * 10 ^ 29))
      (886731088897 / 627013566048) (by norm_num) hs
    rw [if_neg (by norm_num [sign])] at heval
    rw [heval, realRootSum]
    norm_num [sign]
  · rw [q_abs_ite]
    norm_num [ERROR]

/-- Witness for the amended C5 at `a = 1`, `b = −3`, `c = 2`, `s = 1`,
`q = 2`. -/
theorem c5_vieta_exact_witness :
    (1 : ℚ) ≠ 0 ∧ (0 : ℚ) ≤ -3 * -3 - 4 * 1 * 2 ∧
    sqrt_by_newton 1 ((-3 : ℚ) * -3 - 4 * 1 * 2) = some 1 ∧
    (2 : ℚ) = (-0.5 : ℚ) * (-3 + sign (-3) * 1) ∧ (2 : ℚ) ≠ 0 ∧
    (solve_quadratic 1 (.num 1) (.num (-3)) (.num 2) =
        some (.ok (.real ((2 : ℚ) / 1), .real (2 / (2 : ℚ)))) ∧
      (2 : ℚ) / 1 * (2 / 2) = 2 / 1 ∧
      (2 : ℚ) / 1 + 2 / 2 = -(-3) / 1 + (1 * 1 - (-3 * -3 - 4 * 1 * 2)) / (4 * (1 * 2)) ∧
      (0 : ℚ) ≤ 1 * 1 - (-3 * -3 - 4 * 1 * 2) ∧
      (1 : ℚ) * 1 - (-3 * -3 - 4 * 1 * 2) < ERROR * ERROR) :=
  ⟨by norm_num, by norm_num,
   by norm_num [sqrt_by_newton, sqrtLoop, ERROR, q_abs_ite],
   by norm_num [sign], by norm_num,
   (c5_vieta_exact 1 1 (-3) 2 1 (by norm_num)).1 (by norm_num)
     (by norm_num [sqrt_by_newton, sqrtLoop, ERROR, q_abs_ite]) 2
     (by norm_num [sign]) (by norm_num)⟩

/-! ## Model of the Python runtime: binary64 `float`, `str`, `"%.100f"`

`validate_input` (`quadratic_equation_solver.py`, lines 89-116) calls three
Python runtime services: `float(text)` (parse, then round to IEEE-754
binary64, overflowing to infinity), `f"{v:.100f}"` (fixed-point formatting,
correctly rounded to 100 fractional digits) and `str(v)` (the shortest
decimal significand of 1 to 17 digits that parses back to the same double,
formatted with CPython's fixed/scientific threshold `-4 ≤ decExp < 16` and a
sign-carrying, two-digit-padded exponent).  These are modelled below with
exact integer arithmetic: a finite double is `(-1)^neg · m · 2^e`.  The model
covers ASCII numeric text (digits, one `.`, an `e`/`E` exponent, `_` digit
separators, surrounding whitespace, and the `inf`/`infinity`/`nan`
literals). -/

/-- A Python float: NaN, a signed infinity, or a finite binary64 value
`(-1)^neg · m · 2^e` — canonically `2^52 ≤ m < 2^53` for normal values,
`e = -1074` for subnormal values, and `m = 0`, `e = 0` for the signed
zeros. -/
inductive PyFloat where
  | nan
  | inf (neg : Bool)
  | finite (neg : Bool) (m : ℕ) (e : ℤ)
deriving DecidableEq, Repr

/-- Round the ratio `A / B` (`B ≠ 0`) to the nearest integer, ties to even
— the rounding used both by binary64 arithmetic and by CPython's float
formatting. -/
def roundNE (A B : ℕ) : ℕ :=
  let q := A / B
  let r := A % B
  if 2 * r < B then q
  else if B < 2 * r then q + 1
  else if q % 2 = 0 then q else q + 1

/-- Squaring chain for `natLogB`: starting from `(e, p)` with `p = b ^ e`,
square until `n < p`; fuel `n` always suffices since `b ^ (2 ^ n) > n`. -/
def sqChain (b n : ℕ) : ℕ → ℕ × ℕ → ℕ × ℕ
  | 0, ep => ep
  | fuel + 1, (e, p) => if n < p then (e, p) else sqChain b n fuel (e * 2, p * p)

/-- Bisection for `natLogB` on the invariant `b ^ lo ≤ n < b ^ hi`
(`plo = b ^ lo`). -/
def logBisect (b n : ℕ) : ℕ → ℕ → ℕ → ℕ → ℕ
  | 0, lo, _, _ => lo
  | fuel + 1, lo, hi, plo =>
    if hi ≤ lo + 1 then lo
    else
      let mid := (lo + hi) / 2
      let pmid := plo * b ^ (mid - lo)
      if pmid ≤ n then logBisect b n fuel mid hi pmid
      else logBisect b n fuel lo mid plo

/-- `⌊log_b n⌋` for `b ≥ 2` (and `0` when `n < b`), by squaring then
bisection — structurally recursive, so concrete instances evaluate. -/
def natLogB (b n : ℕ) : ℕ :=
  if n < b then 0
  else
    let ep := sqChain b n n (1, b)
    logBisect b n ep.1 0 ep.1 1

/-- `⌊log_b (m · c ^ p)⌋` for `m ≥ 1`, `b, c ≥ 2`, integer `p` (possibly
negative). -/
def floorLog (b m c : ℕ) (p : ℤ) : ℤ :=
  if 0 ≤ p then (natLogB b (m * c ^ p.toNat) : ℤ)
  else
    let d := (-p).toNat
    if c ^ d ≤ m then (natLogB b (m / c ^ d) : ℤ)
    else
      let t0 := natLogB b (c ^ d / m)
      if c ^ d ≤ m * b ^ t0 then -(t0 : ℤ) else -((t0 : ℤ) + 1)

/-- Round the exact decimal value `(-1)^neg · m · 10 ^ p` to the nearest
binary64 float (ties to even), overflowing to the signed infinity and
underflowing to the signed zero — the semantics of Python's `float(text)`
once the text is parsed. -/
def roundDec (neg : Bool) (m : ℕ) (p : ℤ) : PyFloat :=
  if m = 0 then .finite neg 0 0
  else
    let e2 := floorLog 2 m 10 p
    let prec := max e2 (-1022)
    let ulp := prec - 52
    let A := m * (if 0 ≤ p then 10 ^ p.toNat else 1) *
      (if ulp ≤ 0 then 2 ^ (-ulp).toNat else 1)
    let B := (if p < 0 then 10 ^ (-p).toNat else 1) *
      (if 0 < ulp then 2 ^ ulp.toNat else 1)
    let mant0 := roundNE A B
    let mant := if mant0 = 2 ^ 53 then 2 ^ 52 else mant0
    let ulp2 := if mant0 = 2 ^ 53 then ulp + 1 else ulp
    if mant = 0 then .finite neg 0 0
    else if 0 ≤ ulp2 ∧ 2 ^ 1024 ≤ mant * 2 ^ ulp2.toNat then .inf neg
    else .finite neg mant ulp2

/-- Python's underscore rule for numeric literals: every `_` sits between two
digits. -/
def underscoresOk : Option Char → List Char → Bool
  | _, [] => true
  | prev, c :: rest =>
    if c = '_' then
      (match prev, rest with
        | some pc, nc :: _ => pc.isDigit && nc.isDigit
        | _, _ => false) && underscoresOk (some c) rest
    else underscoresOk (some c) rest

/-- The number denoted by a list of decimal digit characters. -/
def digitsVal (cs : List Char) : ℕ :=
  cs.foldl (fun acc c => 10 * acc + (c.toNat - '0'.toNat)) 0

/-- Split a leading run of digits. -/
def splitDigits (cs : List Char) : List Char × List Char :=
  (cs.takeWhile Char.isDigit, cs.dropWhile Char.isDigit)

/-- Grammar of an unsigned Python float literal after underscore removal:
`digits [. digits] [e|E [+|-] digits]`, at least one mantissa digit; yields
the exact value as `(mantissa, decimal exponent)`. -/
def parseMantissaExp (cs : List Char) : Option (ℕ × ℤ) :=
  let ipRest := splitDigits cs
  let fpRest2 :=
    match ipRest.2 with
    | '.' :: r => splitDigits r
    | _ => ([], ipRest.2)
  if ipRest.1.isEmpty && fpRest2.1.isEmpty then none
  else
    let mant := digitsVal (ipRest.1 ++ fpRest2.1)
    let flen : ℤ := (fpRest2.1.length : ℤ)
    match fpRest2.2 with
    | [] => some (mant, -flen)
    | ech :: r3 =>
      if ech = 'e' ∨ ech = 'E' then
        let signRest :=
          match r3 with
          | '+' :: t => ((1 : ℤ), t)
          | '-' :: t => ((-1 : ℤ), t)
          | t => ((1 : ℤ), t)
        let edRest := splitDigits signRest.2
        if edRest.1.isEmpty ∨ ¬edRest.2.isEmpty then none
        else some (mant, signRest.1 * (digitsVal edRest.1 : ℤ) - flen)
      else none

/-- Python's `float(text)`: strip surrounding whitespace, take an optional
sign, accept `inf`/`infinity`/`nan` case-insensitively, otherwise parse the
decimal literal (validating `_` separators) and round it to binary64.
`none` models the `ValueError` Python raises on unparseable text. -/
def pyParseFloat (s : String) : Option PyFloat :=
  let cs0 := ((s.data.dropWhile Char.isWhitespace).reverse.dropWhile
    Char.isWhitespace).reverse
  let negRest :=
    match cs0 with
    | '+' :: t => (false, t)
    | '-' :: t => (true, t)
    | t => (false, t)
  let low := negRest.2.map Char.toLower
  if low = "inf".data ∨ low = "infinity".data then some (.inf negRest.1)
  else if low = "nan".data then some .nan
  else if underscoresOk none negRest.2 then
    match parseMantissaExp (negRest.2.filter (fun c => c ≠ '_')) with
    | none => none
    | some mp => some (roundDec negRest.1 mp.1 mp.2)
  else none

/-- Left-pad a digit string with zeros to length `k`. -/
def natPad (s : String) (k : ℕ) : String :=
  String.mk (List.replicate (k - s.data.length) '0') ++ s

/-- Python's `f"{v:.100f}"`: the value correctly rounded to 100 fractional
decimal digits (`"inf"`/`"nan"` for the special values). -/
def formatFixed100 : PyFloat → String
  | .nan => "nan"
  | .inf neg => if neg then "-inf" else "inf"
  | .finite neg m e =>
    let sgn := if neg then "-" else ""
    if m = 0 then sgn ++ "0." ++ String.mk (List.replicate 100 '0')
    else
      let A := m * 10 ^ 100 * (if 0 ≤ e then 2 ^ e.toNat else 1)
      let B := if e < 0 then 2 ^ (-e).toNat else 1
      let n100 := roundNE A B
      sgn ++ Nat.repr (n100 / 10 ^ 100) ++ "." ++ natPad (Nat.repr (n100 % 10 ^ 100)) 100

/-- The positive double `m · 2 ^ e` rounded to `k` significant decimal
digits, as `(digits, scale)` with value `digits · 10 ^ scale` and `digits` of
exactly `k` digits (a rounding carry shifts the scale). -/
def sigRound (m : ℕ) (e : ℤ) (k : ℕ) : ℕ × ℤ :=
  let decE := floorLog 10 m 2 e
  let scale := decE - (k : ℤ) + 1
  let A := m * (if 0 ≤ e then 2 ^ e.toNat else 1) *
    (if scale ≤ 0 then 10 ^ (-scale).toNat else 1)
  let B := (if e < 0 then 2 ^ (-e).toNat else 1) *
    (if 0 < scale then 10 ^ scale.toNat else 1)
  let d := roundNE A B
  if d = 10 ^ k then (10 ^ (k - 1), scale + 1) else (d, scale)

/-- Search the shortest significand (from `k` digits up, 17 at most) that
rounds back to the same double — the digit-selection rule of CPython's
`repr`/`str` for floats. -/
def shortestSigAux (m : ℕ) (e : ℤ) (k : ℕ) : ℕ → ℕ × ℤ
  | 0 => sigRound m e 17
  | fuel + 1 =>
    let p := sigRound m e k
    if roundDec false p.1 p.2 = .finite false m e then p
    else shortestSigAux m e (k + 1) fuel

def shortestSig (m : ℕ) (e : ℤ) : ℕ × ℤ := shortestSigAux m e 1 16

/-- Python's `str(v)` (= `repr(v)`) for floats: shortest round-tripping
significand, fixed notation for `-4 ≤ decExp < 16` (always with a decimal
point), scientific notation otherwise with a signed, two-digit-padded
exponent. -/
def pyRepr : PyFloat → String
  | .nan => "nan"
  | .inf neg => if neg then "-inf" else "inf"
  | .finite neg m e =>
    let sgn := if neg then "-" else ""
    if m = 0 then sgn ++ "0.0"
    else
      let ds0 := shortestSig m e
      let ds := Nat.repr ds0.1
      let scale := ds0.2
      let decE := scale + (ds.data.length : ℤ) - 1
      if -4 ≤ decE ∧ decE < 16 then
        if 0 ≤ scale then sgn ++ Nat.repr (ds0.1 * 10 ^ scale.toNat) ++ ".0"
        else if 0 ≤ decE then
          let fracLen := (-scale).toNat
          sgn ++ String.mk (ds.data.take (ds.data.length - fracLen)) ++ "." ++
            String.mk (ds.data.drop (ds.data.length - fracLen))
        else
          sgn ++ "0." ++ String.mk (List.replicate ((-decE).toNat - 1) '0') ++ ds
      else
        let mant :=
          match ds.data with
          | [] => "0"
          | d1 :: [] => String.mk [d1]
          | d1 :: rest => String.mk [d1] ++ "." ++ String.mk rest
        let esgn := if decE < 0 then "-" else "+"
        let eabs := Nat.repr (if decE < 0 then (-decE).toNat else decE.toNat)
        let epad := if eabs.data.length < 2 then "0" ++ eabs else eabs
        sgn ++ mant ++ "e" ++ esgn ++ epad

/-! ## The input validator -/

/-- The two failures of `validate_input`: Python's `ValueError` from
`float(text)` on unparseable text (the spec's `NotANumber` kind) and
`NotEnoughPrecisionException` from the round-trip check. -/
inductive PyError where
  | valueError
  | notEnoughPrecision
deriving DecidableEq, Repr

instance : DecidableEq (Except PyError PyFloat) := fun a b =>
  match a, b with
  | .error x, .error y =>
    match decEq x y with
    | isTrue h => isTrue (by rw [h])
    | isFalse h => isFalse (fun hc => h (Except.error.inj hc))
  | .error _, .ok _ => isFalse Except.noConfusion
  | .ok _, .error _ => isFalse Except.noConfusion
  | .ok x, .ok y =>
    match decEq x y with
    | isTrue h => isTrue (by rw [h])
    | isFalse h => isFalse (fun hc => h (Except.ok.inj hc))

/-- Python's `str.rstrip` for a single strip character. -/
def rstripChar (s : String) (c : Char) : String :=
  String.mk ((s.data.reverse.dropWhile (fun x => x = c)).reverse)

/-- `formatted_str` of `validate_input`: the input with `.0` appended when it
has no `.` (`quadratic_equation_solver.py`, lines 100-102). -/
def formattedStrOf (input : String) : String :=
  if input.data.contains '.' then input else input ++ ".0"

/-- `formatted_double` of `validate_input`: `f"{v:.100f}"` with trailing
zeros then a trailing dot stripped, and `.0` restored when no `.` is left
(`quadratic_equation_solver.py`, lines 104-108). -/
def formattedDoubleOf (v : PyFloat) : String :=
  let fd := rstripChar (rstripChar (formatFixed100 v) '0') '.'
  if fd.data.contains '.' then fd else fd ++ ".0"

/-- `validate_input(input_str)` (`quadratic_equation_solver.py`, lines
89-116): parse the text as a double, and raise `NotEnoughPrecisionException`
when both the fixed-decimal reformatting differs from the normalized input
and `str(value)` differs from the raw input (the second disjunct is the
source's `str() to validation e-notation` escape). -/
def validate_input (input_str : String) : Except PyError PyFloat :=
  match pyParseFloat input_str with
  | none => .error .valueError
  | some double_value =>
    if formattedDoubleOf double_value ≠ formattedStrOf input_str ∧
        pyRepr double_value ≠ input_str then
      .error .notEnoughPrecision
    else .ok double_value

/-- The trigger condition of claim C8 as the spec words it: "reformatting the
parsed value back to a canonical decimal string does not match the
(normalized) original text". -/
def canonicalReformatMismatch (s : String) (v : PyFloat) : Prop :=
  formattedDoubleOf v ≠ formattedStrOf s

set_option maxRecDepth 400000 in
/-- Counterexample to C8 as stated: `"1e+300"` parses to the double
`6724873095247260 · 2^944` whose canonical decimal reformatting (301 digits)
does not match the normalized text `"1e+300.0"`, yet `validate_input`
returns the value instead of raising `InsufficientPrecision` — the code
additionally requires `str(value) ≠ input` before raising, and
`str(1e300) = "1e+300"` equals the input. -/
theorem c8_canonical_mismatch_cex :
    canonicalReformatMismatch "1e+300" (.finite false 6724873095247260 944) ∧
    validate_input "1e+300" = .ok (.finite false 6724873095247260 944) := by
  constructor
  · unfold canonicalReformatMismatch
    decide
  · decide

set_option maxRecDepth 400000 in
/-- C8 (amended): `validate_input` raises the `NotANumber`-kind error
(Python's `ValueError`) exactly on unparseable text; on a parsed value it
raises `InsufficientPrecision` when BOTH the canonical fixed-decimal
reformatting mismatches the normalized input AND the language's default
rendering `str(value)` differs from the raw input, and returns the parsed
value otherwise; in particular `validate_input "1e500"` (which overflows to
infinity) raises `InsufficientPrecision`. -/
theorem c8_validate_trichotomy :
    (∀ s : String,
      (pyParseFloat s = none → validate_input s = .error .valueError) ∧
      ∀ v, pyParseFloat s = some v →
        ((formattedDoubleOf v ≠ formattedStrOf s ∧ pyRepr v ≠ s) →
          validate_input s = .error .notEnoughPrecision) ∧
        (¬(formattedDoubleOf v ≠ formattedStrOf s ∧ pyRepr v ≠ s) →
          validate_input s = .ok v)) ∧
    validate_input "1e500" = .error .notEnoughPrecision := by
  constructor
  · intro s
    constructor
    · intro h
      rw [validate_input, h]
    · intro v hv
      constructor
      · intro hcond
        rw [validate_input, hv]
        exact if_pos hcond
      · intro hcond
        rw [validate_input, hv]
        exact if_neg hcond
  · decide

/-- Witness exercising the acceptance path of the (amended) C8 at `"0.5"`:
the value `0.5` is exactly representable, its reformatting agrees with the
normalized input, and the parsed value is returned. -/
theorem c8_validate_trichotomy_witness :
    pyParseFloat "0.5" = some (.finite false (2 ^ 52) (-53)) ∧
    validate_input "0.5" = .ok (.finite false (2 ^ 52) (-53)) :=
  ⟨by decide,
   ((c8_validate_trichotomy.1 "0.5").2 (.finite false (2 ^ 52) (-53))
     (by decide)).2 (by decide)⟩

set_option maxRecDepth 400000 in
/-- C10: `"1e3"` parses to a double whose value is exactly the `1000`
denoted by the text (no precision loss at all), yet `validate_input`
rejects it with `InsufficientPrecision` — scientific notation is rejected
whenever it differs from the language's canonical rendering of the value —
while `"1e+300"`, the canonical rendering of its (inexact!) double, is
accepted. -/
theorem c10_exact_scientific_rejected :
    pyParseFloat "1e3" = some (.finite false (1000 * 2 ^ 43) (-43)) ∧
    ((1000 * 2 ^ 43 : ℕ) : ℚ) / 2 ^ 43 = 1000 ∧
    validate_input "1e3" = .error .notEnoughPrecision ∧
    validate_input "1e+300" = .ok (.finite false 6724873095247260 944) :=
  ⟨by decide, by norm_num, by decide, by decide⟩

end QuadSolver
